import Mathlib

/-!
Verification of the kino model checker core against its specification.

This file gives a shallow embedding, in Lean 4, of the parts of the kino
source that the checked claims are about:

* the offset algebra (`Offset`, `Offset2`, `Smt2Offset::merge`) from
  `term/src/base.rs`;
* the term structure and the `bump` operation (`term/src/factory.rs`,
  with the traversal modelled from the spec, see below);
* the `Bool` instance of the `Domain` trait from `tig/src/lib.rs`
  (`mk_cmp`, `mk_eq`, `choose_rep`);
* the worker event endpoint (`Event::mk`, `Event::get_k_true`,
  `Event::recv`) from `event/src/msg.rs`;
* the prune loop of the invariant pruner from `pruner/src/lib.rs`.

Machine integers are embedded as `Nat` with an explicit `% 2 ^ 16`
where the `u16` width matters.  Fallible operations return `Option`;
`none` models a Rust `Err`, a panic, or (for channels) disconnection,
as documented at each definition.
-/

namespace Kino

/-! ## Offsets (`term/src/base.rs`) -/

/-- Width of the `u16` backing `Offset`. -/
def u16Mod : Nat := 65536

/-- `Offset { offset: u16 }` from `term/src/base.rs`.  The `u16` field is
embedded as a `Nat`; arithmetic reduces modulo `u16Mod` where the source
adds on `u16` (release-mode wrapping semantics). -/
structure Offset where
  offset : Nat
deriving DecidableEq, Repr

/-- `Offset::nxt`: `offset + 1u16`, a 16-bit addition. -/
def Offset.nxt (o : Offset) : Offset := ⟨(o.offset + 1) % u16Mod⟩

/-- `Offset2 { curr, next }` from `term/src/base.rs`. -/
structure Offset2 where
  curr : Offset
  next : Offset
deriving DecidableEq, Repr

/-- `Offset2::init()`: `(Offset::of_int(0), Offset::of_int(1))`. -/
def Offset2.init : Offset2 := ⟨⟨0⟩, ⟨1⟩⟩

/-- `Offset2::nxt`: advance both components. -/
def Offset2.nxt (o : Offset2) : Offset2 := ⟨o.curr.nxt, o.next.nxt⟩

/-- `k`-fold application of `Offset2::nxt` to `Offset2::init()`. -/
def Offset2.iterNxt : Nat → Offset2
| 0 => Offset2.init
| k + 1 => (Offset2.iterNxt k).nxt

/-! ## `Smt2Offset` and its merge (`term/src/base.rs`) -/

/-- `Smt2Offset` from `term/src/base.rs`: parse-time offset tag. -/
inductive Smt2Offset where
| No : Smt2Offset
| One : Offset → Smt2Offset
| Two : Offset → Offset → Smt2Offset
deriving DecidableEq, Repr

/-- Termination measure for `Smt2Offset.merge`: the only recursive call
swaps a `(One, Two)` argument pair into a `(Two, One)` one. -/
def Smt2Offset.rank : Smt2Offset → Nat
| Smt2Offset.No => 0
| Smt2Offset.One _ => 1
| Smt2Offset.Two _ _ => 0

/-- `Smt2Offset::merge` from `term/src/base.rs`.  `none` is the source's
`None` (offset conflict).  The `(One, One)` branch mirrors the source's
`lft.cmp(rgt)` three-way comparison on the underlying `u16`s. -/
def Smt2Offset.merge (s rhs : Smt2Offset) : Option Smt2Offset :=
if s = rhs then some rhs else
match s, rhs with
| Smt2Offset.No, r => some r
| Smt2Offset.One l, Smt2Offset.No => some (Smt2Offset.One l)
| Smt2Offset.Two lo hi, Smt2Offset.No => some (Smt2Offset.Two lo hi)
| Smt2Offset.One lft, Smt2Offset.One rgt =>
    if lft.offset < rgt.offset then some (Smt2Offset.Two lft rgt)
    else if lft.offset = rgt.offset then some (Smt2Offset.One rgt)
    else some (Smt2Offset.Two rgt lft)
| Smt2Offset.Two lo hi, Smt2Offset.One rgt =>
    if rgt ≠ lo ∧ rgt ≠ hi then none else some (Smt2Offset.Two lo hi)
| Smt2Offset.Two _ _, Smt2Offset.Two _ _ => none
| Smt2Offset.One l, Smt2Offset.Two lo hi =>
    Smt2Offset.merge (Smt2Offset.Two lo hi) (Smt2Offset.One l)
termination_by s.rank
decreasing_by simp [Smt2Offset.rank]

/-! ## Terms

The term structure follows the spec's data model (§3) and the `TerM`
enumeration of the term crate: variables, state variables, constants,
applications, operator nodes and binders.  Symbols are embedded as their
intern keys (`Nat`); argument and binding lists are mutual inductives so
that structural recursion stays available. -/

/-- `State` from `term/src/base.rs`: current or next state. -/
inductive State where
| Curr : State
| Next : State
deriving DecidableEq, Repr

/-- Constants: the spec's `Constant = { Bool(b), Int(i), Rat(p/q) }`. -/
inductive Cst where
| Bool : Bool → Cst
| Int : Int → Cst
| Rat : Int → Int → Cst
deriving DecidableEq, Repr

mutual
/-- Terms, after the spec's `Term` sum (§3): `Var`, `SVar`, `Const`,
`App`, `Op`, `Forall`, `Exists`, `Let`. -/
inductive Trm where
| Var : Nat → Trm
| SVar : Nat → State → Trm
| Const : Cst → Trm
| App : Nat → TrmList → Trm
| Op : Nat → TrmList → Trm
| Forall : List Nat → Trm → Trm
| Exists : List Nat → Trm → Trm
| Let : BindList → Trm → Trm
deriving DecidableEq, Repr
/-- Argument lists of `App`/`Op` nodes. -/
inductive TrmList where
| nil : TrmList
| cons : Trm → TrmList → TrmList
deriving DecidableEq, Repr
/-- `Let` bindings: a bound symbol paired with its defining term. -/
inductive BindList where
| nil : BindList
| cons : Nat → Trm → BindList → BindList
deriving DecidableEq, Repr
end

mutual
/-- Modelled from the spec: `bump(Term) → Term | Err` (spec §4.1) — the
traversal behind `Factory::bump` (`term/src/factory.rs` delegates to the
term crate's `UnTermOps::bump`, whose body is not among the sources).
Shift every `SVar(s, Curr)` to `SVar(s, Next)`; fail if a `Next` occurs. -/
def Trm.bump : Trm → Option Trm
| Trm.Var s => some (Trm.Var s)
| Trm.SVar s State.Curr => some (Trm.SVar s State.Next)
| Trm.SVar _ State.Next => none
| Trm.Const c => some (Trm.Const c)
| Trm.App s args => match TrmList.bump args with
  | some args2 => some (Trm.App s args2)
  | none => none
| Trm.Op o args => match TrmList.bump args with
  | some args2 => some (Trm.Op o args2)
  | none => none
| Trm.Forall bs body => match Trm.bump body with
  | some b => some (Trm.Forall bs b)
  | none => none
| Trm.Exists bs body => match Trm.bump body with
  | some b => some (Trm.Exists bs b)
  | none => none
| Trm.Let bs body => match BindList.bump bs, Trm.bump body with
  | some bs2, some b => some (Trm.Let bs2 b)
  | _, _ => none
/-- `bump` on argument lists: fails as soon as one element fails. -/
def TrmList.bump : TrmList → Option TrmList
| TrmList.nil => some TrmList.nil
| TrmList.cons t ts => match Trm.bump t, TrmList.bump ts with
  | some t2, some ts2 => some (TrmList.cons t2 ts2)
  | _, _ => none
/-- `bump` on binding lists: bound symbols are untouched, bound terms are
bumped. -/
def BindList.bump : BindList → Option BindList
| BindList.nil => some BindList.nil
| BindList.cons s t bs => match Trm.bump t, BindList.bump bs with
  | some t2, some bs2 => some (BindList.cons s t2 bs2)
  | _, _ => none
end

mutual
/-- Specification-side description of a successful bump: replace every
`SVar(_, Curr)` by `SVar(_, Next)`, leave every other construct unchanged.
This is the claim's wording, to be compared with `Trm.bump`. -/
def Trm.bumped : Trm → Trm
| Trm.Var s => Trm.Var s
| Trm.SVar s State.Curr => Trm.SVar s State.Next
| Trm.SVar s State.Next => Trm.SVar s State.Next
| Trm.Const c => Trm.Const c
| Trm.App s args => Trm.App s (TrmList.bumped args)
| Trm.Op o args => Trm.Op o (TrmList.bumped args)
| Trm.Forall bs body => Trm.Forall bs (Trm.bumped body)
| Trm.Exists bs body => Trm.Exists bs (Trm.bumped body)
| Trm.Let bs body => Trm.Let (BindList.bumped bs) (Trm.bumped body)
/-- `bumped`, mapped over an argument list. -/
def TrmList.bumped : TrmList → TrmList
| TrmList.nil => TrmList.nil
| TrmList.cons t ts => TrmList.cons (Trm.bumped t) (TrmList.bumped ts)
/-- `bumped`, mapped over the bound terms of a binding list. -/
def BindList.bumped : BindList → BindList
| BindList.nil => BindList.nil
| BindList.cons s t bs => BindList.cons s (Trm.bumped t) (BindList.bumped bs)
end

mutual
/-- Whether a term contains a state variable at `Next`.  A term is
one-state exactly when this is `false`. -/
def Trm.hasNext : Trm → Bool
| Trm.Var _ => false
| Trm.SVar _ State.Curr => false
| Trm.SVar _ State.Next => true
| Trm.Const _ => false
| Trm.App _ args => TrmList.hasNext args
| Trm.Op _ args => TrmList.hasNext args
| Trm.Forall _ body => Trm.hasNext body
| Trm.Exists _ body => Trm.hasNext body
| Trm.Let bs body => BindList.hasNext bs || Trm.hasNext body
/-- `hasNext` over an argument list. -/
def TrmList.hasNext : TrmList → Bool
| TrmList.nil => false
| TrmList.cons t ts => Trm.hasNext t || TrmList.hasNext ts
/-- `hasNext` over the bound terms of a binding list. -/
def BindList.hasNext : BindList → Bool
| BindList.nil => false
| BindList.cons _ t bs => Trm.hasNext t || BindList.hasNext bs
end

mutual
/-- Whether a term contains any state variable at all. -/
def Trm.hasSVar : Trm → Bool
| Trm.Var _ => false
| Trm.SVar _ _ => true
| Trm.Const _ => false
| Trm.App _ args => TrmList.hasSVar args
| Trm.Op _ args => TrmList.hasSVar args
| Trm.Forall _ body => Trm.hasSVar body
| Trm.Exists _ body => Trm.hasSVar body
| Trm.Let bs body => BindList.hasSVar bs || Trm.hasSVar body
/-- `hasSVar` over an argument list. -/
def TrmList.hasSVar : TrmList → Bool
| TrmList.nil => false
| TrmList.cons t ts => Trm.hasSVar t || TrmList.hasSVar ts
/-- `hasSVar` over the bound terms of a binding list. -/
def BindList.hasSVar : BindList → Bool
| BindList.nil => false
| BindList.cons _ t bs => Trm.hasSVar t || BindList.hasSVar bs
end

/-! ## The `Bool` domain of the invariant-generation graph (`tig/src/lib.rs`) -/

/-- `TmpTerm` nodes produced by the `Domain` impls.  The `term::tmp`
module is not among the sources, so its constructors are kept opaque:
an implication, an equality, or a `≤` over two terms. -/
inductive TmpTerm where
| TImpl : Trm → Trm → TmpTerm
| TEq : Trm → Trm → TmpTerm
| TLe : Trm → Trm → TmpTerm
deriving DecidableEq, Repr

/-- `TmpTerm::mk_term_impl`. -/
def TmpTerm.mkTermImpl (l r : Trm) : TmpTerm := TmpTerm.TImpl l r

/-- `TmpTerm::mk_term_eq`. -/
def TmpTerm.mkTermEq (l r : Trm) : TmpTerm := TmpTerm.TEq l r

/-- Modelled from the spec: `Term::is_true` (term crate, not among the
sources) — whether the term is the literal `true` constant. -/
def Trm.isTrue : Trm → Bool
| Trm.Const (Cst.Bool true) => true
| _ => false

/-- Modelled from the spec: `Term::is_false` (term crate, not among the
sources) — whether the term is the literal `false` constant. -/
def Trm.isFalse : Trm → Bool
| Trm.Const (Cst.Bool false) => true
| _ => false

/-- `impl Domain for Bool`, `mk_cmp` (`tig/src/lib.rs`): the implication
`lhs ⇒ rhs`, suppressed when `lhs` is the literal `false` or `rhs` the
literal `true`. -/
def DomainBool.mkCmp (lhs rhs : Trm) : Option TmpTerm :=
if !lhs.isFalse && !rhs.isTrue then some (TmpTerm.mkTermImpl lhs rhs)
else none

/-- `impl Domain for Bool`, `mk_eq` (`tig/src/lib.rs`). -/
def DomainBool.mkEq (lhs rhs : Trm) : Option TmpTerm :=
some (TmpTerm.mkTermEq lhs rhs)

/-- The interned literal `true`: `factory.cst(true)`. -/
def Trm.tru : Trm := Trm.Const (Cst.Bool true)

/-- `Bool::choose_rep` (`tig/src/lib.rs`).  `TermSet` lives in the term
crate, which is not among the sources; modelled from the spec as a
duplicate-free list in deterministic iteration order, so that
`set.iter().next()` is the head and `set.remove` is `List.erase`.  `none`
models the `bail!` on an empty set. -/
def DomainBool.chooseRep (set : List Trm) : Option (Trm × List Trm) :=
if Trm.tru ∈ set then some (Trm.tru, set.erase Trm.tru)
else match set with
| [] => none
| rep :: rest => some (rep, rest)

/-! ## Worker events (`event/src/msg.rs`) -/

/-- The k-true table `HashMap<Sym, Option<Offset>>`, embedded as a total
function from symbol intern keys: `none` means the symbol is absent from
the map, `some v` that it is mapped to `v`. -/
def KMap : Type := Nat → Option (Option Offset)

/-- `HashMap::insert` (insert or overwrite). -/
def KMap.insert (m : KMap) (s : Nat) (v : Option Offset) : KMap :=
fun x => if x = s then some v else m x

/-- `MsgDown` from `event/src/msg.rs`: supervisor-to-worker broadcast.
`STerm`s are embedded as intern keys; `recv` never inspects them. -/
inductive MsgDown where
| Invariants : Nat → List Nat → MsgDown
| Forget : List Nat → MsgDown
| KTrue : List Nat → Offset → MsgDown
deriving DecidableEq, Repr

/-- The loop of `Event::mk` over `props`: insert each property symbol
with value `None`; a duplicate hits the `unreachable!` branch, modelled
as `none`. -/
def Event.mkKTrueGo : List Nat → KMap → Option KMap
| [], m => some m
| p :: ps, m => match m p with
  | some _ => none
  | none => Event.mkKTrueGo ps (KMap.insert m p none)

/-- `Event::mk`, restricted to the `k_true` table it builds. -/
def Event.mkKTrue (props : List Nat) : Option KMap :=
Event.mkKTrueGo props (fun _ => none)

/-- `Event::get_k_true`: look the property up in the table; `none` models
the `panic!("[event.k_true] unknown property")` branch. -/
def Event.getKTrue (m : KMap) (p : Nat) : Option (Option Offset) := m p

/-- The `KTrue` absorption inside `Event::recv`:
`for prop in props { self.k_true.insert(prop, Some(o)) }`. -/
def Event.applyKTrue (m : KMap) (props : List Nat) (o : Offset) : KMap :=
List.foldl (fun m p => KMap.insert m p (some o)) m props

/-- The `loop` of `Event::recv` over `try_recv()`.  `inbox` is the list
of currently buffered messages (FIFO) and `conn` whether the supervisor's
sender is still alive: `try_recv` yields buffered messages first; on an
empty buffer it reports `Empty` when connected (→ `break`, return
`Some(vec)`) and `Disconnected` otherwise (→ `return None`, dropping
`vec`).  `KTrue` messages are absorbed into the table; the source's
catch-all `Ok(msg) => vec.push(msg)` arm is spelled out per remaining
constructor. -/
def Event.recvLoop : List MsgDown → Bool → List MsgDown → KMap →
    Option (List MsgDown) × KMap
| [], true, vec, m => (some vec, m)
| [], false, _, m => (none, m)
| MsgDown.KTrue props o :: rest, conn, vec, m =>
    Event.recvLoop rest conn vec (Event.applyKTrue m props o)
| MsgDown.Invariants sy invs :: rest, conn, vec, m =>
    Event.recvLoop rest conn (vec ++ [MsgDown.Invariants sy invs]) m
| MsgDown.Forget syms :: rest, conn, vec, m =>
    Event.recvLoop rest conn (vec ++ [MsgDown.Forget syms]) m

/-- `Event::recv`: run the loop starting from the empty `vec`. -/
def Event.recv (inbox : List MsgDown) (conn : Bool) (m : KMap) :
    Option (List MsgDown) × KMap :=
Event.recvLoop inbox conn [] m

/-- Specification-side: whether a message is a `KTrue`. -/
def MsgDown.isKTrue : MsgDown → Bool
| MsgDown.KTrue _ _ => true
| _ => false

/-- Specification-side: the batch the spec expects `recv` to return —
the buffered messages in order with the `KTrue`s removed. -/
def Event.dropKTrue (inbox : List MsgDown) : List MsgDown :=
inbox.filter (fun msg => !msg.isKTrue)

/-- Specification-side: the k-true table after absorbing every `KTrue`
message of the inbox, in order. -/
def Event.absorbAll : KMap → List MsgDown → KMap
| m, [] => m
| m, MsgDown.KTrue props o :: rest =>
    Event.absorbAll (Event.applyKTrue m props o) rest
| m, MsgDown.Invariants _ _ :: rest => Event.absorbAll m rest
| m, MsgDown.Forget _ :: rest => Event.absorbAll m rest

/-! ## The invariant pruner (`pruner/src/lib.rs`) -/

/-- Result of one `check_sat_assuming` round in `prune`: `Sat` carries the
candidates that `InvManager::get_false_next` reports falsified in the
model; `Unsat` means the query was unsatisfiable. -/
inductive CheckRes where
| Sat : List Nat → CheckRes
| Unsat : CheckRes
deriving DecidableEq, Repr

/-- Outcome of the `'split` loop of `prune`: the accumulated
`non_trivial_invs`, the candidates the `InvManager` still holds undecided
at exit, whether the loop exited through the UNSAT `break`, and how many
times `deactivate` ran. -/
structure PruneResult where
  nonTrivial : List Nat
  remaining : List Nat
  brokeOnUnsat : Bool
  deactivations : Nat
deriving DecidableEq, Repr

/-- The `'split: while let Some(one_inv_false) = invs.one_false_next()`
loop of `prune` (`pruner/src/lib.rs`, lines 137-185).  Candidates are
`STerm` intern keys.  The `InvManager` is modelled from the spec (its
implementation lives in the `unroll` crate, not among the sources):
`one_false_next` yields a query exactly while not-yet-decided candidates
remain, and `inhibit` removes the reported falsified candidates from the
undecided pool.  The SMT solver is an oracle: `answers` scripts the
successive `check_sat_assuming` results, and the whole run is `none` when
the script runs out while the loop still needs an answer.  On `Sat` the
falsified candidates are inhibited and inserted into `non_trivial_invs`
and the negative actlit is deactivated (counted); on `Unsat` the loop
`break`s. -/
def pruneLoop : List Nat → List CheckRes → List Nat → Nat →
    Option PruneResult
| [], _, nonTrivial, deacts => some ⟨nonTrivial, [], false, deacts⟩
| _ :: _, [], _, _ => none
| c :: rest, CheckRes.Unsat :: _, nonTrivial, deacts =>
    some ⟨nonTrivial, c :: rest, true, deacts⟩
| c :: rest, CheckRes.Sat falsified :: answers, nonTrivial, deacts =>
    pruneLoop ((c :: rest).filter (fun x => !falsified.contains x))
      answers (nonTrivial ++ falsified) (deacts + 1)

/-- `prune`: run the loop on the full candidate set, with nothing decided
and `non_trivial_invs` empty. -/
def prune (invars : List Nat) (answers : List CheckRes) :
    Option PruneResult :=
pruneLoop invars answers [] 0

/-! ## Lemmas about the offset algebra -/

theorem Smt2Offset.merge_self (a : Smt2Offset) : a.merge a = some a := by
cases a
case No => simp [Smt2Offset.merge]
case One o => simp [Smt2Offset.merge]
case Two lo hi => simp [Smt2Offset.merge]

theorem Smt2Offset.merge_no_left (r : Smt2Offset) :
    Smt2Offset.No.merge r = some r := by
cases r
case No => simp [Smt2Offset.merge]
case One o => simp [Smt2Offset.merge]
case Two lo hi => simp [Smt2Offset.merge]

theorem Smt2Offset.merge_no_right (s : Smt2Offset) :
    s.merge Smt2Offset.No = some s := by
cases s
case No => simp [Smt2Offset.merge]
case One o => simp [Smt2Offset.merge]
case Two lo hi => simp [Smt2Offset.merge]

theorem Smt2Offset.merge_comm (a b : Smt2Offset) : a.merge b = b.merge a := by
cases a <;> cases b
case No.No => rfl
case No.One o => simp [Smt2Offset.merge]
case No.Two lo hi => simp [Smt2Offset.merge]
case One.No o => simp [Smt2Offset.merge]
case Two.No lo hi => simp [Smt2Offset.merge]
case One.One x y =>
  rcases x with ⟨x⟩ ; rcases y with ⟨y⟩
  by_cases h : x = y
  · subst h ; rfl
  · simp only [Smt2Offset.merge, Smt2Offset.One.injEq, Offset.mk.injEq]
    split_ifs <;> simp_all <;> omega
case One.Two x lo hi =>
  simp only [Smt2Offset.merge]
  split_ifs with h <;> simp_all
case Two.One lo hi x =>
  simp only [Smt2Offset.merge]
  split_ifs with h <;> simp_all
case Two.Two lo hi lo2 hi2 =>
  simp only [Smt2Offset.merge, Smt2Offset.Two.injEq]
  split_ifs <;> simp_all

theorem Smt2Offset.merge_one_lt (x y : Offset) (h : x.offset < y.offset) :
    (Smt2Offset.One x).merge (Smt2Offset.One y)
      = some (Smt2Offset.Two x y) := by
rcases x with ⟨x⟩ ; rcases y with ⟨y⟩
simp only [Smt2Offset.merge, Smt2Offset.One.injEq, Offset.mk.injEq]
split_ifs <;> simp_all

theorem Smt2Offset.merge_two_one_mem (lo hi o : Offset) (h : o = lo ∨ o = hi) :
    (Smt2Offset.Two lo hi).merge (Smt2Offset.One o)
      = some (Smt2Offset.Two lo hi) := by
simp only [Smt2Offset.merge]
split_ifs <;> simp_all

theorem Smt2Offset.merge_none_iff (a b : Smt2Offset) :
    a.merge b = none ↔
      ((∃ lo hi o, ((a = Smt2Offset.Two lo hi ∧ b = Smt2Offset.One o) ∨
          (a = Smt2Offset.One o ∧ b = Smt2Offset.Two lo hi)) ∧
        o ≠ lo ∧ o ≠ hi) ∨
      (∃ lo hi lo2 hi2, a = Smt2Offset.Two lo hi ∧ b = Smt2Offset.Two lo2 hi2 ∧
        a ≠ b)) := by
cases a <;> cases b
case No.No => simp [Smt2Offset.merge]
case No.One o => simp [Smt2Offset.merge]
case No.Two lo hi => simp [Smt2Offset.merge]
case One.No o => simp [Smt2Offset.merge]
case Two.No lo hi => simp [Smt2Offset.merge]
case One.One x y =>
  simp only [Smt2Offset.merge, Smt2Offset.One.injEq]
  split_ifs <;> simp_all
case One.Two x lo hi =>
  simp only [Smt2Offset.merge]
  split_ifs with h <;> simp_all <;> tauto
case Two.One lo hi x =>
  simp only [Smt2Offset.merge]
  split_ifs with h h2 <;> simp_all <;> tauto
case Two.Two lo hi lo2 hi2 =>
  simp only [Smt2Offset.merge, Smt2Offset.Two.injEq]
  split_ifs with h <;> simp_all

example : Smt2Offset.merge (Smt2Offset.One ⟨1⟩) (Smt2Offset.One ⟨2⟩)
    = some (Smt2Offset.Two ⟨1⟩ ⟨2⟩) := by simp [Smt2Offset.merge]

example : Smt2Offset.merge (Smt2Offset.Two ⟨1⟩ ⟨2⟩) (Smt2Offset.One ⟨3⟩)
    = none := by simp [Smt2Offset.merge]

example : Offset2.iterNxt 3 = ⟨⟨3⟩, ⟨4⟩⟩ := by decide

theorem Offset2.iterNxt_formula (k : Nat) :
    (Offset2.iterNxt k).curr.offset = k % u16Mod ∧
    (Offset2.iterNxt k).next.offset = (k + 1) % u16Mod := by
induction k with
| zero => simp [Offset2.iterNxt, Offset2.init, u16Mod]
| succ k ih =>
  simp only [Offset2.iterNxt, Offset2.nxt, Offset.nxt, ih.1, ih.2, u16Mod] at *
  omega

/-- C3: `Smt2Offset::merge` follows the spec's merge table — `No` merged with
`x` gives `x`; `One(o)` with `One(o)` gives `One(o)`; `One(a)` with `One(b)`
for `a < b` gives `Two(a,b)`; `Two(lo,hi)` with `One(o)` gives `Two(lo,hi)`
when `o ∈ {lo,hi}`; equal values merge to themselves — and merge returns no
result (conflict) exactly when one side is `Two(lo,hi)` and the other is
`One(o)` with `o ∉ {lo,hi}`, or both sides are unequal `Two` values. -/
theorem claim_C3_merge_table :
    (∀ x, Smt2Offset.No.merge x = some x) ∧
    (∀ o, (Smt2Offset.One o).merge (Smt2Offset.One o)
      = some (Smt2Offset.One o)) ∧
    (∀ x y : Offset, x.offset < y.offset →
      (Smt2Offset.One x).merge (Smt2Offset.One y)
        = some (Smt2Offset.Two x y)) ∧
    (∀ lo hi o : Offset, (o = lo ∨ o = hi) →
      (Smt2Offset.Two lo hi).merge (Smt2Offset.One o)
        = some (Smt2Offset.Two lo hi)) ∧
    (∀ a : Smt2Offset, a.merge a = some a) ∧
    (∀ a b : Smt2Offset, a.merge b = none ↔
      ((∃ lo hi o, ((a = Smt2Offset.Two lo hi ∧ b = Smt2Offset.One o) ∨
          (a = Smt2Offset.One o ∧ b = Smt2Offset.Two lo hi)) ∧
        o ≠ lo ∧ o ≠ hi) ∨
      (∃ lo hi lo2 hi2, a = Smt2Offset.Two lo hi ∧
        b = Smt2Offset.Two lo2 hi2 ∧ a ≠ b))) :=
⟨Smt2Offset.merge_no_left, fun o => Smt2Offset.merge_self (Smt2Offset.One o),
  Smt2Offset.merge_one_lt, Smt2Offset.merge_two_one_mem,
  Smt2Offset.merge_self, Smt2Offset.merge_none_iff⟩

/-- Witness for C3: the hypothesized table rows at concrete offsets. -/
theorem claim_C3_merge_table_witness :
    (Smt2Offset.One ⟨1⟩).merge (Smt2Offset.One ⟨2⟩)
      = some (Smt2Offset.Two ⟨1⟩ ⟨2⟩) ∧
    (Smt2Offset.Two ⟨1⟩ ⟨2⟩).merge (Smt2Offset.One ⟨2⟩)
      = some (Smt2Offset.Two ⟨1⟩ ⟨2⟩) :=
⟨claim_C3_merge_table.2.2.1 ⟨1⟩ ⟨2⟩ (by decide),
  claim_C3_merge_table.2.2.2.1 ⟨1⟩ ⟨2⟩ ⟨2⟩ (Or.inr rfl)⟩

/-- C4: `Smt2Offset::merge` is commutative when defined — `merge(a,b)` is
defined iff `merge(b,a)` is, and when both are defined the results are
equal; moreover `merge(No, x) = x` for every `x`. -/
theorem claim_C4_merge_comm :
    (∀ a b : Smt2Offset, (a.merge b).isSome ↔ (b.merge a).isSome) ∧
    (∀ (a b x y : Smt2Offset), a.merge b = some x → b.merge a = some y →
      x = y) ∧
    (∀ x, Smt2Offset.No.merge x = some x) := by
refine ⟨fun a b => ?_, fun a b x y hab hba => ?_, Smt2Offset.merge_no_left⟩
· rw [Smt2Offset.merge_comm]
· rw [Smt2Offset.merge_comm] at hab
  exact Option.some.inj (hab.symm.trans hba)

/-- Witness for C4: both merge orders of `One(1)` and `One(2)` are defined
and return the same value. -/
theorem claim_C4_merge_comm_witness :
    Smt2Offset.Two ⟨1⟩ ⟨2⟩ = Smt2Offset.Two ⟨1⟩ ⟨2⟩ :=
claim_C4_merge_comm.2.1 (Smt2Offset.One ⟨1⟩) (Smt2Offset.One ⟨2⟩) _ _
  (by simp [Smt2Offset.merge]) (by simp [Smt2Offset.merge])

/-- C5 (counterexample): at `k = 65535` the `u16` offset wraps, so the claim
"`nxt^k` of `init` has `next = k + 1` for every natural `k`" fails: the
`Next` index is `0`, not `65536`. -/
theorem claim_C5_cex : ¬ ((Offset2.iterNxt 65535).next.offset = 65535 + 1) := by
have h := (Offset2.iterNxt_formula 65535).2
rw [h]
decide

/-- C5 (amended): for every `k` with `k + 1 < 2 ^ 16` (so that both
components fit the `u16` backing an `Offset`), applying `nxt` `k` times to
`Offset2::init()` yields `Curr = k` and `Next = k + 1`; beyond that bound
the 16-bit offsets wrap. -/
theorem claim_C5_iterNxt (k : Nat) (h : k + 1 < u16Mod) :
    (Offset2.iterNxt k).curr.offset = k ∧
    (Offset2.iterNxt k).next.offset = k + 1 := by
have hf := Offset2.iterNxt_formula k
exact ⟨by rw [hf.1] ; exact Nat.mod_eq_of_lt (by omega),
  by rw [hf.2] ; exact Nat.mod_eq_of_lt h⟩

/-- Witness for C5 (amended) at `k = 3`. -/
theorem claim_C5_iterNxt_witness :
    3 + 1 < u16Mod ∧ (Offset2.iterNxt 3).curr.offset = 3 ∧
      (Offset2.iterNxt 3).next.offset = 3 + 1 :=
⟨by decide, claim_C5_iterNxt 3 (by decide)⟩

/-! ## Lemmas about `bump` -/

mutual
theorem Trm.bump_eq_bumped :
    (t : Trm) → t.hasNext = false → t.bump = some t.bumped
| Trm.Var _, _ => rfl
| Trm.SVar _ State.Curr, _ => rfl
| Trm.SVar _ State.Next, h => by simp [Trm.hasNext] at h
| Trm.Const _, _ => rfl
| Trm.App s args, h => by
  have hh := TrmList.args_bump_eq_bumped args (by simpa [Trm.hasNext] using h)
  simp [Trm.bump, Trm.bumped, hh]
| Trm.Op o args, h => by
  have hh := TrmList.args_bump_eq_bumped args (by simpa [Trm.hasNext] using h)
  simp [Trm.bump, Trm.bumped, hh]
| Trm.Forall bs body, h => by
  have hh := Trm.bump_eq_bumped body (by simpa [Trm.hasNext] using h)
  simp [Trm.bump, Trm.bumped, hh]
| Trm.Exists bs body, h => by
  have hh := Trm.bump_eq_bumped body (by simpa [Trm.hasNext] using h)
  simp [Trm.bump, Trm.bumped, hh]
| Trm.Let bs body, h => by
  have h2 : BindList.hasNext bs = false ∧ Trm.hasNext body = false := by
    simpa [Trm.hasNext] using h
  have hb := BindList.binds_bump_eq_bumped bs h2.1
  have hbody := Trm.bump_eq_bumped body h2.2
  simp [Trm.bump, Trm.bumped, hb, hbody]
theorem TrmList.args_bump_eq_bumped :
    (ts : TrmList) → ts.hasNext = false → ts.bump = some ts.bumped
| TrmList.nil, _ => rfl
| TrmList.cons t ts, h => by
  have h2 : Trm.hasNext t = false ∧ TrmList.hasNext ts = false := by
    simpa [TrmList.hasNext] using h
  have ht := Trm.bump_eq_bumped t h2.1
  have hts := TrmList.args_bump_eq_bumped ts h2.2
  simp [TrmList.bump, TrmList.bumped, ht, hts]
theorem BindList.binds_bump_eq_bumped :
    (bs : BindList) → bs.hasNext = false → bs.bump = some bs.bumped
| BindList.nil, _ => rfl
| BindList.cons s t bs, h => by
  have h2 : Trm.hasNext t = false ∧ BindList.hasNext bs = false := by
    simpa [BindList.hasNext] using h
  have ht := Trm.bump_eq_bumped t h2.1
  have hbs := BindList.binds_bump_eq_bumped bs h2.2
  simp [BindList.bump, BindList.bumped, ht, hbs]
end

mutual
theorem Trm.bump_none : (t : Trm) → t.hasNext = true → t.bump = none
| Trm.Var _, h => by simp [Trm.hasNext] at h
| Trm.SVar _ State.Curr, h => by simp [Trm.hasNext] at h
| Trm.SVar _ State.Next, _ => rfl
| Trm.Const _, h => by simp [Trm.hasNext] at h
| Trm.App s args, h => by
  have hh := TrmList.args_bump_none args (by simpa [Trm.hasNext] using h)
  simp [Trm.bump, hh]
| Trm.Op o args, h => by
  have hh := TrmList.args_bump_none args (by simpa [Trm.hasNext] using h)
  simp [Trm.bump, hh]
| Trm.Forall bs body, h => by
  have hh := Trm.bump_none body (by simpa [Trm.hasNext] using h)
  simp [Trm.bump, hh]
| Trm.Exists bs body, h => by
  have hh := Trm.bump_none body (by simpa [Trm.hasNext] using h)
  simp [Trm.bump, hh]
| Trm.Let bs body, h => by
  have h2 : BindList.hasNext bs = true ∨ Trm.hasNext body = true := by
    simpa [Trm.hasNext, Bool.or_eq_true] using h
  rcases h2 with h2 | h2
  · simp [Trm.bump, BindList.binds_bump_none bs h2]
  · cases hbs : BindList.bump bs <;>
      simp [Trm.bump, hbs, Trm.bump_none body h2]
theorem TrmList.args_bump_none :
    (ts : TrmList) → ts.hasNext = true → ts.bump = none
| TrmList.cons t ts, h => by
  have h2 : Trm.hasNext t = true ∨ TrmList.hasNext ts = true := by
    simpa [TrmList.hasNext, Bool.or_eq_true] using h
  rcases h2 with h2 | h2
  · simp [TrmList.bump, Trm.bump_none t h2]
  · cases ht : Trm.bump t <;> simp [TrmList.bump, ht, TrmList.args_bump_none ts h2]
theorem BindList.binds_bump_none :
    (bs : BindList) → bs.hasNext = true → bs.bump = none
| BindList.cons s t bs, h => by
  have h2 : Trm.hasNext t = true ∨ BindList.hasNext bs = true := by
    simpa [BindList.hasNext, Bool.or_eq_true] using h
  rcases h2 with h2 | h2
  · simp [BindList.bump, Trm.bump_none t h2]
  · cases ht : Trm.bump t <;> simp [BindList.bump, ht, BindList.binds_bump_none bs h2]
end

mutual
theorem Trm.bumped_hasNext :
    (t : Trm) → t.hasSVar = true → t.bumped.hasNext = true
| Trm.Var _, h => by simp [Trm.hasSVar] at h
| Trm.SVar _ State.Curr, _ => rfl
| Trm.SVar _ State.Next, _ => rfl
| Trm.Const _, h => by simp [Trm.hasSVar] at h
| Trm.App s args, h => by
  have hh := TrmList.args_bumped_hasNext args (by simpa [Trm.hasSVar] using h)
  simp [Trm.bumped, Trm.hasNext, hh]
| Trm.Op o args, h => by
  have hh := TrmList.args_bumped_hasNext args (by simpa [Trm.hasSVar] using h)
  simp [Trm.bumped, Trm.hasNext, hh]
| Trm.Forall bs body, h => by
  have hh := Trm.bumped_hasNext body (by simpa [Trm.hasSVar] using h)
  simp [Trm.bumped, Trm.hasNext, hh]
| Trm.Exists bs body, h => by
  have hh := Trm.bumped_hasNext body (by simpa [Trm.hasSVar] using h)
  simp [Trm.bumped, Trm.hasNext, hh]
| Trm.Let bs body, h => by
  have h2 : BindList.hasSVar bs = true ∨ Trm.hasSVar body = true := by
    simpa [Trm.hasSVar, Bool.or_eq_true] using h
  rcases h2 with h2 | h2
  · simp [Trm.bumped, Trm.hasNext, BindList.binds_bumped_hasNext bs h2]
  · simp [Trm.bumped, Trm.hasNext, Trm.bumped_hasNext body h2]
theorem TrmList.args_bumped_hasNext :
    (ts : TrmList) → ts.hasSVar = true → ts.bumped.hasNext = true
| TrmList.cons t ts, h => by
  have h2 : Trm.hasSVar t = true ∨ TrmList.hasSVar ts = true := by
    simpa [TrmList.hasSVar, Bool.or_eq_true] using h
  rcases h2 with h2 | h2
  · simp [TrmList.bumped, TrmList.hasNext, Trm.bumped_hasNext t h2]
  · simp [TrmList.bumped, TrmList.hasNext, TrmList.args_bumped_hasNext ts h2]
theorem BindList.binds_bumped_hasNext :
    (bs : BindList) → bs.hasSVar = true → bs.bumped.hasNext = true
| BindList.cons s t bs, h => by
  have h2 : Trm.hasSVar t = true ∨ BindList.hasSVar bs = true := by
    simpa [BindList.hasSVar, Bool.or_eq_true] using h
  rcases h2 with h2 | h2
  · simp [BindList.bumped, BindList.hasNext, Trm.bumped_hasNext t h2]
  · simp [BindList.bumped, BindList.hasNext, BindList.binds_bumped_hasNext bs h2]
end

/-- C6 (counterexample): `Var 0` is a one-state term (no `SVar` at `Next`),
yet applying `bump` twice to it succeeds, refuting "applying bump twice to
a one-state term fails". -/
theorem claim_C6_cex :
    (Trm.Var 0).hasNext = false ∧
    ((Trm.Var 0).bump.bind Trm.bump) = some (Trm.Var 0) ∧
    ((Trm.Var 0).bump.bind Trm.bump) ≠ none := by
exact ⟨rfl, rfl, by decide⟩

/-- C6 (amended): for every one-state term `t` (no `SVar` at `Next`),
`bump t` succeeds and returns `t` with every `SVar(s, Curr)` replaced by
`SVar(s, Next)` and everything else unchanged; `bump` of a term containing
an `SVar` at `Next` fails; hence `bump` twice fails for every one-state
term that contains at least one state variable (for state-variable-free
terms the second `bump` succeeds, returning the term unchanged). -/
theorem claim_C6_bump :
    (∀ t : Trm, t.hasNext = false → t.bump = some t.bumped) ∧
    (∀ t : Trm, t.hasNext = true → t.bump = none) ∧
    (∀ t : Trm, t.hasNext = false → t.hasSVar = true →
      (t.bump.bind Trm.bump) = none) := by
refine ⟨Trm.bump_eq_bumped, Trm.bump_none, fun t h1 h2 => ?_⟩
rw [Trm.bump_eq_bumped t h1]
exact Trm.bump_none _ (Trm.bumped_hasNext t h2)

/-- Witness for C6 (amended): bumping `SVar(0, Curr)` succeeds and yields
`SVar(0, Next)`; bumping `SVar(0, Next)` fails; bumping twice from
`SVar(0, Curr)` fails. -/
theorem claim_C6_bump_witness :
    (Trm.SVar 0 State.Curr).bump = some ((Trm.SVar 0 State.Curr).bumped) ∧
    (Trm.SVar 0 State.Next).bump = none ∧
    ((Trm.SVar 0 State.Curr).bump.bind Trm.bump) = none :=
⟨claim_C6_bump.1 (Trm.SVar 0 State.Curr) rfl,
  claim_C6_bump.2.1 (Trm.SVar 0 State.Next) rfl,
  claim_C6_bump.2.2 (Trm.SVar 0 State.Curr) rfl rfl⟩

/-! ## The `Bool` domain: claims C7 and C8 -/

/-- C7: the `Bool` domain's `mk_cmp(l, r)` returns the implication term
`l ⇒ r` exactly when `l` is not the literal `false` and `r` is not the
literal `true`, and returns nothing otherwise; its `mk_eq(l, r)` always
returns the equality term `l = r`. -/
theorem claim_C7_bool_domain :
    (∀ l r : Trm, DomainBool.mkCmp l r = some (TmpTerm.TImpl l r) ↔
      (l.isFalse = false ∧ r.isTrue = false)) ∧
    (∀ l r : Trm, DomainBool.mkCmp l r = none ↔
      (l.isFalse = true ∨ r.isTrue = true)) ∧
    (∀ l r : Trm, DomainBool.mkEq l r = some (TmpTerm.TEq l r)) := by
refine ⟨fun l r => ?_, fun l r => ?_, fun l r => rfl⟩ <;>
  cases hl : l.isFalse <;> cases hr : r.isTrue <;>
    simp [DomainBool.mkCmp, hl, hr, TmpTerm.mkTermImpl]

/-- C8: on every non-empty duplicate-free term set, `Bool::choose_rep`
succeeds and returns a pair `(rep, rest)` with `rep` not in `rest`,
`rest` plus `rep` equal to the input set, and `rep` the literal `true`
whenever `true` is in the set; on the empty set it returns an error.
Determinism across runs holds by construction: the embedded iteration
order is a pure function of the input set. -/
theorem claim_C8_choose_rep :
    (∀ set : List Trm, set.Nodup → set ≠ [] →
      ∃ rep rest, DomainBool.chooseRep set = some (rep, rest) ∧
        rep ∉ rest ∧ (rep :: rest).Perm set ∧
        (Trm.tru ∈ set → rep = Trm.tru)) ∧
    DomainBool.chooseRep [] = none := by
constructor
· intro set hnd hne
  by_cases htru : Trm.tru ∈ set
  · refine ⟨Trm.tru, set.erase Trm.tru, ?_, ?_, ?_, fun _ => rfl⟩
    · simp [DomainBool.chooseRep, htru]
    · exact hnd.not_mem_erase
    · exact (List.perm_cons_erase htru).symm
  · cases set with
    | nil => exact absurd rfl hne
    | cons rep rest =>
      refine ⟨rep, rest, ?_, ?_, List.Perm.refl _, fun h => absurd h htru⟩
      · simp [DomainBool.chooseRep, htru]
      · exact (List.nodup_cons.mp hnd).1
· rfl

/-- Witness for C8 on the set `{true, Var 0}`: the representative is the
literal `true`. -/
theorem claim_C8_choose_rep_witness :
    ∃ rep rest,
      DomainBool.chooseRep [Trm.tru, Trm.Var 0] = some (rep, rest) ∧
      rep ∉ rest ∧ (rep :: rest).Perm [Trm.tru, Trm.Var 0] ∧
      (Trm.tru ∈ [Trm.tru, Trm.Var 0] → rep = Trm.tru) :=
claim_C8_choose_rep.1 [Trm.tru, Trm.Var 0] (by decide) (by decide)

/-! ## Event-bus lemmas: claims C2, C9, C10 -/

theorem Event.applyKTrue_not_mem (props : List Nat) :
    ∀ (m : KMap) (o : Offset) (p : Nat), p ∉ props →
      Event.applyKTrue m props o p = m p := by
induction props with
| nil => intro m o p _ ; rfl
| cons q qs ih =>
  intro m o p hp
  have hpq : p ≠ q := fun h => hp (h ▸ List.mem_cons_self q qs)
  have hqs : p ∉ qs := fun h => hp (List.mem_cons_of_mem q h)
  show Event.applyKTrue (KMap.insert m q (some o)) qs o p = m p
  rw [ih _ o p hqs]
  simp [KMap.insert, hpq]

theorem Event.applyKTrue_mem (props : List Nat) :
    ∀ (m : KMap) (o : Offset) (p : Nat), p ∈ props →
      Event.applyKTrue m props o p = some (some o) := by
induction props with
| nil => intro m o p hp ; cases hp
| cons q qs ih =>
  intro m o p hp
  by_cases hqs : p ∈ qs
  · exact ih _ o p hqs
  · have hpq : p = q := by
      rcases List.mem_cons.mp hp with h | h
      · exact h
      · exact absurd h hqs
    show Event.applyKTrue (KMap.insert m q (some o)) qs o p = some (some o)
    rw [Event.applyKTrue_not_mem qs _ o p hqs]
    simp [KMap.insert, hpq]

theorem Event.recvLoop_true (inbox : List MsgDown) :
    ∀ (vec : List MsgDown) (m : KMap),
      Event.recvLoop inbox true vec m
        = (some (vec ++ Event.dropKTrue inbox), Event.absorbAll m inbox) := by
induction inbox with
| nil => intro vec m ; simp [Event.recvLoop, Event.dropKTrue, Event.absorbAll]
| cons msg rest ih =>
  intro vec m
  cases msg with
  | KTrue props o =>
    simp [Event.recvLoop, Event.dropKTrue, Event.absorbAll, ih,
      MsgDown.isKTrue]
  | Invariants sy invs =>
    simp [Event.recvLoop, Event.dropKTrue, Event.absorbAll, ih,
      MsgDown.isKTrue]
  | Forget syms =>
    simp [Event.recvLoop, Event.dropKTrue, Event.absorbAll, ih,
      MsgDown.isKTrue]

theorem Event.recvLoop_false (inbox : List MsgDown) :
    ∀ (vec : List MsgDown) (m : KMap),
      Event.recvLoop inbox false vec m = (none, Event.absorbAll m inbox) := by
induction inbox with
| nil => intro vec m ; rfl
| cons msg rest ih =>
  intro vec m
  cases msg with
  | KTrue props o => simp [Event.recvLoop, Event.absorbAll, ih]
  | Invariants sy invs => simp [Event.recvLoop, Event.absorbAll, ih]
  | Forget syms => simp [Event.recvLoop, Event.absorbAll, ih]

theorem Event.mkKTrueGo_spec (props : List Nat) :
    ∀ (m0 m : KMap), Event.mkKTrueGo props m0 = some m →
      ∀ p, (p ∈ props → m p = some none) ∧ (p ∉ props → m p = m0 p) := by
induction props with
| nil =>
  intro m0 m h p
  injection h with h
  subst h
  exact ⟨fun hp => absurd hp (List.not_mem_nil p), fun _ => rfl⟩
| cons q qs ih =>
  intro m0 m h p
  revert h
  show (match m0 q with
    | some _ => none
    | none => Event.mkKTrueGo qs (KMap.insert m0 q none)) = some m → _
  cases hq : m0 q with
  | some v => intro h ; cases h
  | none =>
    intro h
    have spec := ih _ m h p
    constructor
    · intro hp
      rcases List.mem_cons.mp hp with hpq | hpqs
      · by_cases hqs : p ∈ qs
        · exact spec.1 hqs
        · rw [spec.2 hqs]
          simp [KMap.insert, hpq]
      · exact spec.1 hpqs
    · intro hp
      have hpq : p ≠ q := fun hh => hp (hh ▸ List.mem_cons_self q qs)
      have hqs : p ∉ qs := fun hh => hp (List.mem_cons_of_mem q hh)
      rw [spec.2 hqs]
      simp [KMap.insert, hpq]

/-- C2: for every state of the inbox, `Event::recv` drains all buffered
messages without blocking; when the supervisor's sender is alive it
returns the drained batch with every `KTrue` removed, each `KTrue(props,
o)` having set the `k_true` entry of every symbol in `props` to
`Some(o)`; when the sender is disconnected it returns `None` (the caller,
e.g. the pruner's `None => return ()` arm, must then exit). -/
theorem claim_C2_recv :
    (∀ (inbox : List MsgDown) (m : KMap),
      Event.recv inbox true m
        = (some (Event.dropKTrue inbox), Event.absorbAll m inbox)) ∧
    (∀ (m : KMap) (props : List Nat) (o : Offset) (p : Nat), p ∈ props →
      Event.applyKTrue m props o p = some (some o)) ∧
    (∀ (inbox : List MsgDown) (m : KMap),
      (Event.recv inbox false m).1 = none) := by
refine ⟨fun inbox m => ?_,
  fun m props o p hp => Event.applyKTrue_mem props m o p hp,
  fun inbox m => ?_⟩
· show Event.recvLoop inbox true [] m = _
  rw [Event.recvLoop_true]
  simp
· show (Event.recvLoop inbox false [] m).1 = none
  rw [Event.recvLoop_false]

/-- Witness for C2: a buffered `KTrue([7], 3)` is absorbed by `recv` and
symbol `7` is now mapped to `Some(3)`. -/
theorem claim_C2_recv_witness :
    Event.recv [MsgDown.KTrue [7] ⟨3⟩] true (fun _ => none)
      = (some (Event.dropKTrue [MsgDown.KTrue [7] ⟨3⟩]),
         Event.absorbAll (fun _ => none) [MsgDown.KTrue [7] ⟨3⟩]) ∧
    Event.applyKTrue (fun _ => none) [7] ⟨3⟩ 7 = some (some ⟨3⟩) :=
⟨claim_C2_recv.1 [MsgDown.KTrue [7] ⟨3⟩] (fun _ => none),
  claim_C2_recv.2.1 (fun _ => none) [7] ⟨3⟩ 7 (by decide)⟩

/-- C9: `Event::get_k_true(sym)` returns the stored entry (initially
`None` for each property) when `sym` is one of the property symbols the
`Event` was created with, and panics (modelled `none`) otherwise. -/
theorem claim_C9_get_k_true :
    ∀ (props : List Nat) (m : KMap), Event.mkKTrue props = some m →
      ∀ p, (p ∈ props → Event.getKTrue m p = some none) ∧
           (p ∉ props → Event.getKTrue m p = none) := by
intro props m h p
have spec := Event.mkKTrueGo_spec props _ m h p
exact ⟨spec.1, fun hp => spec.2 hp⟩

/-- Witness for C9 with properties `{0, 1}`: looking up `0` yields the
initial `None` entry, looking up `5` panics. -/
theorem claim_C9_get_k_true_witness :
    ∃ m : KMap, Event.mkKTrue [0, 1] = some m ∧
      Event.getKTrue m 0 = some none ∧ Event.getKTrue m 5 = none :=
⟨_, rfl, (claim_C9_get_k_true [0, 1] _ rfl 0).1 (by decide),
  (claim_C9_get_k_true [0, 1] _ rfl 5).2 (by decide)⟩

/-- C10: when the supervisor's sender is dropped while messages are still
buffered, one `recv` call drains them — permanently applying every
`KTrue` update — and then returns `None`, losing the non-`KTrue` part of
the drained batch. -/
theorem claim_C10_recv_disconnected :
    ∀ (inbox : List MsgDown) (m : KMap),
      Event.recv inbox false m = (none, Event.absorbAll m inbox) :=
fun inbox m => Event.recvLoop_false inbox [] m

/-! ## Pruner lemmas: claim C1 -/

theorem pruneLoop_exit (answers : List CheckRes) :
    ∀ (undecided nonTrivial : List Nat) (d : Nat) (res : PruneResult),
      pruneLoop undecided answers nonTrivial d = some res →
      res.remaining = [] ∨ res.brokeOnUnsat = true := by
induction answers with
| nil =>
  intro undecided nt d res h
  cases undecided with
  | nil => injection h with h ; subst h ; left ; rfl
  | cons c cs => cases h
| cons ans rest ih =>
  intro undecided nt d res h
  cases undecided with
  | nil => injection h with h ; subst h ; left ; rfl
  | cons c cs =>
    cases ans with
    | Unsat => injection h with h ; subst h ; right ; rfl
    | Sat falsified => exact ih _ _ _ _ h

/-- C1 (counterexample): with two undecided candidates and a first check
answering UNSAT, the prune loop ends at once with both candidates still
undecided — refuting "on UNSAT the candidate is marked trivial, its
negative actlit deactivated, and the loop continues until no
not-yet-decided candidate remains". -/
theorem claim_C1_cex :
    prune [0, 1] [CheckRes.Unsat] = some ⟨[], [0, 1], true, 0⟩ ∧
    ([0, 1] : List Nat) ≠ [] :=
⟨rfl, by decide⟩

/-- C1 (amended): when a check returns UNSAT the prune loop `break`s
immediately — nothing is marked, the negative actlit is not deactivated,
and the non-trivial set collected so far is returned; consequently the
loop ends either because no not-yet-decided candidate remains
(`one_false_next` returns none) or at the first UNSAT answer. -/
theorem claim_C1_prune_unsat :
    (∀ (c : Nat) (rest : List Nat) (answers : List CheckRes)
        (nonTrivial : List Nat) (d : Nat),
      pruneLoop (c :: rest) (CheckRes.Unsat :: answers) nonTrivial d
        = some ⟨nonTrivial, c :: rest, true, d⟩) ∧
    (∀ (invars : List Nat) (answers : List CheckRes) (res : PruneResult),
      prune invars answers = some res →
      res.remaining = [] ∨ res.brokeOnUnsat = true) :=
⟨fun _ _ _ _ _ => rfl,
  fun invars answers res h => pruneLoop_exit answers invars [] 0 res h⟩

/-- Witness for C1 (amended): an UNSAT answer stops the loop with the
picked candidate still undecided; a run ending normally has an empty
undecided pool. -/
theorem claim_C1_prune_unsat_witness :
    pruneLoop [0] [CheckRes.Unsat] [] 0 = some ⟨[], [0], true, 0⟩ ∧
    ((⟨[5], [], false, 1⟩ : PruneResult).remaining = [] ∨
      (⟨[5], [], false, 1⟩ : PruneResult).brokeOnUnsat = true) :=
⟨claim_C1_prune_unsat.1 0 [] [] [] 0,
  claim_C1_prune_unsat.2 [5] [CheckRes.Sat [5]] ⟨[5], [], false, 1⟩
    (by decide)⟩

end Kino
